import Mathlib

/-!
# Verification of the claude-usage session-segmentation and metrics engine

A shallow embedding of `crates/claude-usage-lib` (files `data_structures.rs`,
`identifier.rs`, `calculator.rs`, `monitor.rs`, `pricing.rs`).

Modelling conventions:
* `chrono::DateTime<Utc>` timestamps are modelled as `Int` epoch seconds
  (`Duration::num_seconds` of a difference is then exact subtraction, and
  `with_minute(0).with_second(0).with_nanosecond(0)` is flooring to a
  multiple of 3600).
* `f64` quantities (costs, rates, `duration_minutes`) are modelled as `ℚ`.
* `u64` token counts are modelled as `Nat`.
* Rust's `as i64` / `as u64` casts from `f64` (truncation toward zero,
  saturating at zero for `u64` on negative inputs) are modelled explicitly.
* `Option` models Rust `Option`; `chrono::Duration::minutes(n)` is modelled
  as the integer `n` of whole minutes.
-/

namespace ClaudeUsage

/-- `UsageEntry` from `data_structures.rs`: one model invocation record. -/
structure UsageEntry where
  timestamp : Int
  model : String
  input_tokens : Nat
  output_tokens : Nat
  cache_creation_input_tokens : Nat
  cache_read_input_tokens : Nat
  cost_usd : ℚ
deriving DecidableEq, Repr

/-- `UsageEntry::total_tokens`: input + output. -/
def UsageEntry.total_tokens (e : UsageEntry) : Nat :=
  e.input_tokens + e.output_tokens

/-- `UsageEntry::all_tokens`: all four token categories. -/
def UsageEntry.all_tokens (e : UsageEntry) : Nat :=
  e.input_tokens + e.output_tokens + e.cache_creation_input_tokens +
    e.cache_read_input_tokens

/-- `TokenCounts` from `data_structures.rs`: running accumulator. -/
structure TokenCounts where
  input_tokens : Nat
  output_tokens : Nat
  cache_creation_input_tokens : Nat
  cache_read_input_tokens : Nat
deriving DecidableEq, Repr

/-- `TokenCounts::new`. -/
def TokenCounts.new : TokenCounts := ⟨0, 0, 0, 0⟩

/-- `TokenCounts::add_entry`. -/
def TokenCounts.add_entry (tc : TokenCounts) (e : UsageEntry) : TokenCounts :=
  ⟨tc.input_tokens + e.input_tokens,
   tc.output_tokens + e.output_tokens,
   tc.cache_creation_input_tokens + e.cache_creation_input_tokens,
   tc.cache_read_input_tokens + e.cache_read_input_tokens⟩

/-- `TokenCounts::total_tokens`. -/
def TokenCounts.total_tokens (tc : TokenCounts) : Nat :=
  tc.input_tokens + tc.output_tokens

/-- `SessionBlock` from `data_structures.rs`. -/
structure SessionBlock where
  start_time : Int
  end_time : Int
  entries : List UsageEntry
  token_counts : TokenCounts
  cost_usd : ℚ
  duration_minutes : ℚ
deriving DecidableEq, Repr

/-- `SessionBlock::new`. -/
def SessionBlock.new (start_time end_time : Int) : SessionBlock :=
  ⟨start_time, end_time, [], TokenCounts.new, 0, 0⟩

/-- `SessionBlock::update_duration`: `duration_minutes :=
(last.timestamp - first.timestamp).num_seconds / 60.0`, replaced by `1.0`
when that quotient is exactly `0.0`; no-op on an empty block. -/
def SessionBlock.update_duration (b : SessionBlock) : SessionBlock :=
  match b.entries with
  | [] => b
  | f :: rest =>
      let actual_end := (rest.getLastD f).timestamp
      let dm : ℚ := ((actual_end - f.timestamp : Int) : ℚ) / 60
      { b with duration_minutes := if dm = 0 then 1 else dm }

/-- `SessionBlock::add_entry`: accumulate counts and cost, push the entry,
then `update_duration`. -/
def SessionBlock.add_entry (b : SessionBlock) (e : UsageEntry) : SessionBlock :=
  SessionBlock.update_duration
    { b with
      token_counts := b.token_counts.add_entry e
      cost_usd := b.cost_usd + e.cost_usd
      entries := b.entries ++ [e] }

/-- `SessionBlock::is_empty`. -/
def SessionBlock.is_empty (b : SessionBlock) : Bool :=
  b.entries.isEmpty

/-- A block built by `SessionBlock::new` followed by a sequence of
`add_entry` calls, one per list element in order. -/
def build_block (start_time end_time : Int) (l : List UsageEntry) : SessionBlock :=
  l.foldl SessionBlock.add_entry (SessionBlock.new start_time end_time)

/-- The value `update_duration` stores for a block whose entry list is `l`
(`0` for the empty list, which `update_duration` never overwrites). -/
def dm_spec : List UsageEntry → ℚ
  | [] => 0
  | f :: rest =>
      let q : ℚ := (((rest.getLastD f).timestamp - f.timestamp : Int) : ℚ) / 60
      if q = 0 then 1 else q

/-- Sample block: one entry of 150 total tokens, `duration_minutes = 1`. -/
def sample_block_fast : SessionBlock :=
  ⟨0, 18000, [⟨0, "m", 100, 50, 0, 0, 0⟩], ⟨100, 50, 0, 0⟩, 0, 1⟩

/-- Sample block: one entry of 100 total tokens, `duration_minutes = 2`. -/
def sample_block_slow : SessionBlock :=
  ⟨0, 18000, [⟨0, "m", 60, 40, 0, 0, 0⟩], ⟨60, 40, 0, 0⟩, 0, 2⟩

/-! ## Session identifier (`identifier.rs`)

`SessionIdentifier` carries one configuration value, `session_duration`
(default 5 hours); it is passed here as the explicit argument `d`, in seconds.
-/

/-- `SessionIdentifier::round_to_hour`: zero out minutes, seconds and
sub-seconds, i.e. floor to a multiple of 3600 seconds. -/
def round_to_hour (t : Int) : Int :=
  3600 * (Int.fdiv t 3600)

/-- `SessionIdentifier::create_block_for_entry`. -/
def create_block_for_entry (d : Int) (e : UsageEntry) : SessionBlock :=
  SessionBlock.new (round_to_hour e.timestamp) (round_to_hour e.timestamp + d)

/-- `SessionIdentifier::should_create_new_block`: rule 1 (at or past the
block's fixed `end_time`), else rule 2 (gap from the block's last entry at
least the window length). -/
def should_create_new_block (d : Int) (b : SessionBlock) (e : UsageEntry) : Bool :=
  if b.end_time ≤ e.timestamp then
    true
  else
    match b.entries.getLast? with
    | some last_entry => decide (d ≤ e.timestamp - last_entry.timestamp)
    | none => false

/-- The scan loop of `SessionIdentifier::identify_blocks`: walk the remaining
entries, keeping the accumulated closed blocks and the optional current
block. -/
def identify_blocks_loop (d : Int) :
    List UsageEntry → List SessionBlock → Option SessionBlock → List SessionBlock
  | [], blocks, none => blocks
  | [], blocks, some b => blocks ++ [b]
  | e :: rest, blocks, none =>
      identify_blocks_loop d rest blocks
        (some ((create_block_for_entry d e).add_entry e))
  | e :: rest, blocks, some b =>
      if should_create_new_block d b e then
        identify_blocks_loop d rest (blocks ++ [b])
          (some ((create_block_for_entry d e).add_entry e))
      else
        identify_blocks_loop d rest blocks (some (b.add_entry e))

/-- `SessionIdentifier::identify_blocks`. -/
def identify_blocks (d : Int) (entries : List UsageEntry) : List SessionBlock :=
  if entries.isEmpty then [] else identify_blocks_loop d entries [] none

/-- The sequence of (current block, scanned entry) decision points of
`identify_blocks`' loop: each pair records the current block and the entry
against which `should_create_new_block` is evaluated, following exactly the
loop's state transitions. -/
def scan_pairs (d : Int) :
    List UsageEntry → Option SessionBlock → List (SessionBlock × UsageEntry)
  | [], _ => []
  | e :: rest, none =>
      scan_pairs d rest (some ((create_block_for_entry d e).add_entry e))
  | e :: rest, some b =>
      (b, e) ::
        (if should_create_new_block d b e then
          scan_pairs d rest (some ((create_block_for_entry d e).add_entry e))
        else
          scan_pairs d rest (some (b.add_entry e)))

/-- Concatenation of the entry lists of a block sequence, in block order. -/
def blocks_entries : List SessionBlock → List UsageEntry
  | [] => []
  | b :: bs => b.entries ++ blocks_entries bs

/-- Entry lists sorted ascending by timestamp (consecutive comparisons). -/
def SortedAsc (l : List UsageEntry) : Prop :=
  l.Chain' (fun a b => a.timestamp ≤ b.timestamp)

/-- Executable check for `SortedAsc`. -/
def sorted_asc_check : List UsageEntry → Bool
  | [] => true
  | [_] => true
  | a :: b :: rest =>
      decide (a.timestamp ≤ b.timestamp) && sorted_asc_check (b :: rest)

theorem sorted_asc_check_iff : ∀ l : List UsageEntry,
    sorted_asc_check l = true ↔ SortedAsc l
  | [] => by simp [sorted_asc_check, SortedAsc]
  | [a] => by simp [sorted_asc_check, SortedAsc]
  | a :: b :: rest => by
      have ih := sorted_asc_check_iff (b :: rest)
      rw [SortedAsc] at ih ⊢
      rw [List.chain'_cons, ← ih]
      simp [sorted_asc_check]

instance (l : List UsageEntry) : Decidable (SortedAsc l) :=
  decidable_of_iff (sorted_asc_check l = true) (sorted_asc_check_iff l)

/-! ## Calculator (`calculator.rs`) -/

/-- `BurnRate` from `data_structures.rs`. -/
structure BurnRate where
  tokens_per_minute : ℚ
  cost_per_hour : ℚ
deriving DecidableEq, Repr

/-- `UsageProjection` from `data_structures.rs`. -/
structure UsageProjection where
  current_tokens : Nat
  current_cost : ℚ
  projected_additional_tokens : Nat
  projected_additional_cost : ℚ
  projected_total_tokens : Nat
  projected_total_cost : ℚ
deriving DecidableEq, Repr

/-- `UsageProjection::new`: totals are current plus additional. -/
def UsageProjection.new (current_tokens : Nat) (current_cost : ℚ)
    (projected_additional_tokens : Nat) (projected_additional_cost : ℚ) :
    UsageProjection :=
  ⟨current_tokens, current_cost, projected_additional_tokens,
   projected_additional_cost,
   current_tokens + projected_additional_tokens,
   current_cost + projected_additional_cost⟩

/-- Rust `as u64` on an `f64`: truncate toward zero, saturating at `0` for
negative inputs. -/
def f64_to_u64 (q : ℚ) : Nat :=
  if q < 0 then 0 else (⌊q⌋).toNat

/-- Rust `as i64` on an `f64`: truncate toward zero. -/
def f64_to_i64 (q : ℚ) : Int :=
  if q < 0 then -⌊-q⌋ else ⌊q⌋

/-- `Calculator::calculate_burn_rate`. -/
def calculate_burn_rate (b : SessionBlock) : Option BurnRate :=
  if b.entries = [] ∨ b.duration_minutes = 0 then
    none
  else
    some ⟨(b.token_counts.total_tokens : ℚ) / b.duration_minutes,
          b.cost_usd / b.duration_minutes * 60⟩

/-- `Calculator::project_block_usage`. -/
def project_block_usage (b : SessionBlock) (current_time : Int) :
    Option UsageProjection :=
  if b.entries = [] ∨ b.end_time ≤ current_time then
    none
  else
    (calculate_burn_rate b).bind fun br =>
      let remaining_minutes : ℚ := ((b.end_time - current_time : Int) : ℚ) / 60
      let remaining_hours : ℚ := remaining_minutes / 60
      some (UsageProjection.new b.token_counts.total_tokens b.cost_usd
        (f64_to_u64 (br.tokens_per_minute * remaining_minutes))
        (br.cost_per_hour * remaining_hours))

/-- `Calculator::calculate_average_burn_rate`: component-wise arithmetic mean
of the burn rates of the blocks where one is defined. -/
def calculate_average_burn_rate (blocks : List SessionBlock) : Option BurnRate :=
  if blocks.isEmpty then
    none
  else
    let burn_rates := blocks.filterMap calculate_burn_rate
    if burn_rates.isEmpty then
      none
    else
      some ⟨(burn_rates.map BurnRate.tokens_per_minute).sum / burn_rates.length,
            (burn_rates.map BurnRate.cost_per_hour).sum / burn_rates.length⟩

/-- `Calculator::calculate_time_to_limit`: result in whole minutes
(`Duration::minutes(x as i64)`). -/
def calculate_time_to_limit (current_tokens token_limit : Nat)
    (current_burn_rate : ℚ) : Option Int :=
  if token_limit ≤ current_tokens ∨ current_burn_rate ≤ 0 then
    none
  else
    some (f64_to_i64 (((token_limit - current_tokens : Nat) : ℚ) /
      current_burn_rate))

/-- `Calculator::calculate_weighted_tokens`. -/
def calculate_weighted_tokens (e : UsageEntry) (model_weight : ℚ) : ℚ :=
  (e.total_tokens : ℚ) * model_weight

/-! ## Plans and monitor (`data_structures.rs`, `monitor.rs`, `pricing.rs`) -/

/-- `ClaudePlan` from `data_structures.rs`. -/
inductive ClaudePlan where
  | Pro
  | Max5
  | Max20
deriving DecidableEq, Repr

/-- `ClaudePlan::max_tokens`. -/
def ClaudePlan.max_tokens : ClaudePlan → Nat
  | .Pro => 44000
  | .Max5 => 220000
  | .Max20 => 880000

/-- `PricingProvider::get_model_weight` from `pricing.rs`. -/
def get_model_weight (model : String) : ℚ :=
  match model with
  | "claude-3-opus-20240229" | "claude-opus-4-20250514" => 5
  | "claude-3-sonnet-20240229" | "claude-3-5-sonnet-20240620"
  | "claude-3-5-sonnet-20241022" | "claude-sonnet-4-20250514" => 1
  | "claude-3-haiku-20240307" | "claude-3-5-haiku-20241022" => 1 / 5
  | _ => 1

/-- `UsageMonitor::get_total_weighted_tokens`: sum over the monitor's entry
log of each entry's weighted tokens under its model's weight. -/
def get_total_weighted_tokens (entries : List UsageEntry) : ℚ :=
  (entries.map (fun e => calculate_weighted_tokens e (get_model_weight e.model))).sum

/-- `UsageMonitor::get_plan_usage_percentage`: weighted total over the plan
cap, times 100. -/
def get_plan_usage_percentage (entries : List UsageEntry) (plan : ClaudePlan) : ℚ :=
  get_total_weighted_tokens entries / (plan.max_tokens : ℚ) * 100

end ClaudeUsage

/-! ## Structural lemmas about `SessionBlock` operations -/

namespace ClaudeUsage

/-- Entry list of an optional current block. -/
def opt_entries : Option SessionBlock → List UsageEntry
  | none => []
  | some b => b.entries

/-- Invariant of every block that `identify_blocks` ever holds as current or
pushes, for window length `d` and timestamp-ascending input: non-empty,
fixed-length window, internally sorted, entries at or after `start_time`
(and, when the window is at least an hour, before `end_time`), and
`duration_minutes` as maintained by `update_duration`. -/
def BlockInv (d : Int) (b : SessionBlock) : Prop :=
  b.entries ≠ [] ∧
  b.end_time = b.start_time + d ∧
  SortedAsc b.entries ∧
  (∀ x ∈ b.entries, b.start_time ≤ x.timestamp) ∧
  (3600 ≤ d → ∀ x ∈ b.entries, x.timestamp < b.end_time) ∧
  b.duration_minutes = dm_spec b.entries

theorem update_duration_entries (b : SessionBlock) :
    (SessionBlock.update_duration b).entries = b.entries := by
  rcases b with ⟨s, en, ents, tc, c, dm⟩
  cases ents <;> rfl

theorem add_entry_entries (b : SessionBlock) (e : UsageEntry) :
    (b.add_entry e).entries = b.entries ++ [e] := by
  rw [SessionBlock.add_entry, update_duration_entries]

theorem update_duration_start (b : SessionBlock) :
    (SessionBlock.update_duration b).start_time = b.start_time := by
  rcases b with ⟨s, en, ents, tc, c, dm⟩
  cases ents <;> rfl

theorem update_duration_end (b : SessionBlock) :
    (SessionBlock.update_duration b).end_time = b.end_time := by
  rcases b with ⟨s, en, ents, tc, c, dm⟩
  cases ents <;> rfl

theorem update_duration_token_counts (b : SessionBlock) :
    (SessionBlock.update_duration b).token_counts = b.token_counts := by
  rcases b with ⟨s, en, ents, tc, c, dm⟩
  cases ents <;> rfl

theorem update_duration_cost (b : SessionBlock) :
    (SessionBlock.update_duration b).cost_usd = b.cost_usd := by
  rcases b with ⟨s, en, ents, tc, c, dm⟩
  cases ents <;> rfl

theorem add_entry_start (b : SessionBlock) (e : UsageEntry) :
    (b.add_entry e).start_time = b.start_time := by
  rw [SessionBlock.add_entry, update_duration_start]

theorem add_entry_end (b : SessionBlock) (e : UsageEntry) :
    (b.add_entry e).end_time = b.end_time := by
  rw [SessionBlock.add_entry, update_duration_end]

theorem add_entry_token_counts (b : SessionBlock) (e : UsageEntry) :
    (b.add_entry e).token_counts = b.token_counts.add_entry e := by
  rw [SessionBlock.add_entry, update_duration_token_counts]

theorem add_entry_cost (b : SessionBlock) (e : UsageEntry) :
    (b.add_entry e).cost_usd = b.cost_usd + e.cost_usd := by
  rw [SessionBlock.add_entry, update_duration_cost]

/-- After an `add_entry`, `duration_minutes` is the `update_duration` value
of the extended entry list. -/
theorem add_entry_duration (b : SessionBlock) (e : UsageEntry) :
    (b.add_entry e).duration_minutes = dm_spec (b.entries ++ [e]) := by
  rcases b with ⟨s, en, ents, tc, c, dm⟩
  cases ents with
  | nil => rfl
  | cons f rest =>
      show (SessionBlock.update_duration
        ⟨s, en, (f :: rest) ++ [e], _, _, dm⟩).duration_minutes = _
      rw [SessionBlock.update_duration]
      simp only [List.cons_append, dm_spec, List.getLastD_concat]

theorem build_block_entries (s en : Int) (l : List UsageEntry) :
    (build_block s en l).entries = l := by
  suffices h : ∀ (l : List UsageEntry) (b : SessionBlock),
      (l.foldl SessionBlock.add_entry b).entries = b.entries ++ l by
    simpa [build_block, SessionBlock.new] using h l (SessionBlock.new s en)
  intro l
  induction l with
  | nil => simp
  | cons e rest ih =>
      intro b
      rw [List.foldl_cons, ih, add_entry_entries]
      simp

theorem build_block_end (s en : Int) (l : List UsageEntry) :
    (build_block s en l).end_time = en := by
  suffices h : ∀ (l : List UsageEntry) (b : SessionBlock),
      (l.foldl SessionBlock.add_entry b).end_time = b.end_time by
    simpa [build_block, SessionBlock.new] using h l (SessionBlock.new s en)
  intro l
  induction l with
  | nil => simp
  | cons e rest ih =>
      intro b
      rw [List.foldl_cons, ih, add_entry_end]

theorem build_block_duration (s en : Int) (l : List UsageEntry) (hne : l ≠ []) :
    (build_block s en l).duration_minutes = dm_spec l := by
  rcases List.eq_nil_or_concat l with rfl | ⟨l', e, rfl⟩
  · exact absurd rfl hne
  · rw [List.concat_eq_append, build_block, List.foldl_append, List.foldl_cons,
      List.foldl_nil, add_entry_duration]
    rw [show (List.foldl SessionBlock.add_entry (SessionBlock.new s en) l') =
      build_block s en l' from rfl, build_block_entries]

end ClaudeUsage

namespace ClaudeUsage

theorem round_to_hour_le (t : Int) : round_to_hour t ≤ t := by
  rw [round_to_hour, Int.fdiv_eq_ediv t (by norm_num)]
  have h := Int.ediv_add_emod t 3600
  have h2 := Int.emod_nonneg t (show (3600 : Int) ≠ 0 by norm_num)
  omega

theorem lt_round_to_hour_add (t : Int) : t < round_to_hour t + 3600 := by
  rw [round_to_hour, Int.fdiv_eq_ediv t (by norm_num)]
  have h := Int.ediv_add_emod t 3600
  have h2 := Int.emod_lt_of_pos t (show (0 : Int) < 3600 by norm_num)
  omega

/-- In a timestamp-ascending list, the head's timestamp is at most the
last's. -/
theorem chain_head_le_getLastD :
    ∀ (rest : List UsageEntry) (f : UsageEntry),
      SortedAsc (f :: rest) → f.timestamp ≤ (rest.getLastD f).timestamp
  | [], f, _ => le_refl _
  | a :: rest', f, h => by
      rw [SortedAsc, List.chain'_cons] at h
      calc f.timestamp ≤ a.timestamp := h.1
        _ ≤ ((a :: rest').getLastD f).timestamp := by
            rw [List.getLastD_cons]
            exact chain_head_le_getLastD rest' a h.2

theorem dm_spec_ne_zero (l : List UsageEntry) (hne : l ≠ []) : dm_spec l ≠ 0 := by
  match l with
  | f :: rest =>
      rw [dm_spec]
      split
      · norm_num
      · assumption

theorem dm_spec_pos (l : List UsageEntry) (hne : l ≠ []) (hs : SortedAsc l) :
    0 < dm_spec l := by
  match l with
  | f :: rest =>
      have hle : f.timestamp ≤ (rest.getLastD f).timestamp :=
        chain_head_le_getLastD rest f hs
      rw [dm_spec]
      set q : ℚ := (((rest.getLastD f).timestamp - f.timestamp : Int) : ℚ) / 60
        with hq
      have hq0 : 0 ≤ q := by
        apply div_nonneg _ (by norm_num)
        exact_mod_cast Int.sub_nonneg.mpr hle
      split
      · norm_num
      · rename_i hne0
        exact lt_of_le_of_ne hq0 (Ne.symm hne0)

end ClaudeUsage

namespace ClaudeUsage

/-- A freshly created block, with its triggering entry added, satisfies the
scan invariant. -/
theorem blockinv_new (d : Int) (e : UsageEntry) :
    BlockInv d ((create_block_for_entry d e).add_entry e) := by
  have hent : ((create_block_for_entry d e).add_entry e).entries = [e] := by
    rw [add_entry_entries]; rfl
  refine ⟨by rw [hent]; simp, ?_, ?_, ?_, ?_, ?_⟩
  · rw [add_entry_end, add_entry_start]; rfl
  · rw [SortedAsc, hent]; exact List.chain'_singleton e
  · intro x hx
    rw [hent, List.mem_singleton] at hx
    subst hx
    rw [add_entry_start]
    exact round_to_hour_le x.timestamp
  · intro hd x hx
    rw [hent, List.mem_singleton] at hx
    subst hx
    rw [add_entry_end]
    show x.timestamp < (create_block_for_entry d x).end_time
    calc x.timestamp < round_to_hour x.timestamp + 3600 :=
          lt_round_to_hour_add x.timestamp
      _ ≤ round_to_hour x.timestamp + d := by omega
      _ = (create_block_for_entry d x).end_time := rfl
  · rw [add_entry_duration, hent]
    show dm_spec ([] ++ [e]) = dm_spec [e]
    rfl

/-- Appending an entry that does not trigger a new block preserves the scan
invariant, provided it is not older than the block's last entry. -/
theorem blockinv_append (d : Int) (b : SessionBlock) (e : UsageEntry)
    (hinv : BlockInv d b)
    (hsc : should_create_new_block d b e = false)
    (hle : ∀ last_e ∈ b.entries.getLast?, last_e.timestamp ≤ e.timestamp) :
    BlockInv d (b.add_entry e) := by
  obtain ⟨hne, hend, hsort, hlow, hup, hdur⟩ := hinv
  have hlt : e.timestamp < b.end_time := by
    rw [should_create_new_block] at hsc
    by_contra h
    rw [if_pos (by omega)] at hsc
    simp at hsc
  have hlast : b.entries.getLast? = some (b.entries.getLast hne) :=
    List.getLast?_eq_getLast b.entries hne
  have hlaste : (b.entries.getLast hne).timestamp ≤ e.timestamp := by
    apply hle
    rw [hlast]; rfl
  refine ⟨by rw [add_entry_entries]; simp, ?_, ?_, ?_, ?_, ?_⟩
  · rw [add_entry_end, add_entry_start]; exact hend
  · rw [SortedAsc, add_entry_entries]
    apply List.Chain'.append hsort (List.chain'_singleton e)
    intro x hx y hy
    rw [hlast, Option.mem_some_iff] at hx
    rw [List.head?_cons, Option.mem_some_iff] at hy
    subst hx; subst hy
    exact hlaste
  · intro x hx
    rw [add_entry_entries, List.mem_append] at hx
    rw [add_entry_start]
    rcases hx with hx | hx
    · exact hlow x hx
    · rw [List.mem_singleton] at hx
      subst hx
      calc b.start_time ≤ (b.entries.getLast hne).timestamp :=
            hlow _ (List.mem_of_mem_getLast? hlast)
        _ ≤ x.timestamp := hlaste
  · intro hd x hx
    rw [add_entry_entries, List.mem_append] at hx
    rw [add_entry_end]
    rcases hx with hx | hx
    · exact hup hd x hx
    · rw [List.mem_singleton] at hx
      subst hx
      exact hlt
  · rw [add_entry_duration, add_entry_entries]

/-- If `should_create_new_block` fires on a block satisfying the scan
invariant, the triggering entry is at or past the block's `end_time`: the
idle-gap rule alone can never close a block strictly inside its window. -/
theorem should_create_imp_past_end (d : Int) (b : SessionBlock) (e : UsageEntry)
    (hinv : BlockInv d b)
    (hsc : should_create_new_block d b e = true) :
    b.end_time ≤ e.timestamp := by
  obtain ⟨hne, hend, hsort, hlow, hup, hdur⟩ := hinv
  by_contra hlt
  rw [should_create_new_block, if_neg hlt] at hsc
  have hlast : b.entries.getLast? = some (b.entries.getLast hne) :=
    List.getLast?_eq_getLast b.entries hne
  rw [hlast] at hsc
  have hgap : d ≤ e.timestamp - (b.entries.getLast hne).timestamp :=
    of_decide_eq_true hsc
  have hstart : b.start_time ≤ (b.entries.getLast hne).timestamp :=
    hlow _ (List.mem_of_mem_getLast? hlast)
  omega

end ClaudeUsage

namespace ClaudeUsage

theorem blocks_entries_append (l1 l2 : List SessionBlock) :
    blocks_entries (l1 ++ l2) = blocks_entries l1 ++ blocks_entries l2 := by
  induction l1 with
  | nil => rfl
  | cons b bs ih => simp [blocks_entries, ih]

/-- Each loop step deposits the scanned entry at the tail of exactly one
block: the concatenated output is the already-closed blocks, the current
block, then the unscanned remainder. -/
theorem loop_join (d : Int) :
    ∀ (rest : List UsageEntry) (acc : List SessionBlock)
      (cur : Option SessionBlock),
      blocks_entries (identify_blocks_loop d rest acc cur) =
        blocks_entries acc ++ opt_entries cur ++ rest
  | [], acc, none => by
      simp [identify_blocks_loop, opt_entries]
  | [], acc, some b => by
      simp [identify_blocks_loop, opt_entries, blocks_entries_append,
        blocks_entries]
  | e :: rest, acc, none => by
      rw [identify_blocks_loop, loop_join d rest]
      simp [opt_entries, add_entry_entries, create_block_for_entry,
        SessionBlock.new]
  | e :: rest, acc, some b => by
      rw [identify_blocks_loop]
      split
      · rw [loop_join d rest]
        simp [opt_entries, add_entry_entries, create_block_for_entry,
          SessionBlock.new, blocks_entries_append, blocks_entries]
      · rw [loop_join d rest]
        simp [opt_entries, add_entry_entries]

/-- The scan invariant holds of every block the loop returns. -/
theorem loop_inv (d : Int) :
    ∀ (rest : List UsageEntry) (acc : List SessionBlock) (b : SessionBlock),
      BlockInv d b → SortedAsc (b.entries ++ rest) →
      (∀ x ∈ acc, BlockInv d x) →
      ∀ y ∈ identify_blocks_loop d rest acc (some b), BlockInv d y
  | [], acc, b, hb, _, hacc, y, hy => by
      rw [identify_blocks_loop] at hy
      rcases List.mem_append.1 hy with h | h
      · exact hacc y h
      · rw [List.mem_singleton] at h
        subst h; exact hb
  | e :: rest, acc, b, hb, hs, hacc, y, hy => by
      rw [identify_blocks_loop] at hy
      rw [SortedAsc] at hs
      split at hy
      · refine loop_inv d rest (acc ++ [b]) _ (blockinv_new d e) ?_ ?_ y hy
        · show SortedAsc (((create_block_for_entry d e).add_entry e).entries ++ rest)
          rw [SortedAsc, add_entry_entries]
          exact (List.chain'_append.1 hs).2.1
        · intro x hx
          rcases List.mem_append.1 hx with h | h
          · exact hacc x h
          · rw [List.mem_singleton] at h
            subst h; exact hb
      · refine loop_inv d rest acc (b.add_entry e) ?_ ?_ hacc y hy
        · refine blockinv_append d b e hb (by rename_i hsc; simpa using hsc) ?_
          intro last_e hlast
          exact (List.chain'_append.1 hs).2.2 last_e hlast e (by rw [List.head?_cons]; rfl)
        · show SortedAsc ((b.add_entry e).entries ++ rest)
          rw [SortedAsc, add_entry_entries, List.append_assoc]
          exact hs

/-- The scan invariant holds of every block `identify_blocks` returns on a
timestamp-ascending input. -/
theorem identify_blocks_inv (d : Int) (l : List UsageEntry) (hs : SortedAsc l) :
    ∀ y ∈ identify_blocks d l, BlockInv d y := by
  cases l with
  | nil =>
      intro y hy
      rw [identify_blocks] at hy
      simp at hy
  | cons e rest =>
      intro y hy
      rw [identify_blocks] at hy
      rw [show ((e :: rest : List UsageEntry).isEmpty) = false from rfl,
        if_neg (by simp)] at hy
      rw [identify_blocks_loop] at hy
      refine loop_inv d rest [] _ (blockinv_new d e) ?_ (by simp) y hy
      show SortedAsc (((create_block_for_entry d e).add_entry e).entries ++ rest)
      rw [SortedAsc, add_entry_entries]
      exact hs

/-- The scan invariant holds of the block of every decision point. -/
theorem scan_pairs_inv (d : Int) :
    ∀ (rest : List UsageEntry) (b : SessionBlock),
      BlockInv d b → SortedAsc (b.entries ++ rest) →
      ∀ p ∈ scan_pairs d rest (some b), BlockInv d p.1
  | [], b, hb, _, p, hp => by
      rw [scan_pairs] at hp
      simp at hp
  | e :: rest, b, hb, hs, p, hp => by
      rw [scan_pairs] at hp
      rw [SortedAsc] at hs
      rcases List.mem_cons.1 hp with h | h
      · subst h; exact hb
      · split at h
        · refine scan_pairs_inv d rest _ (blockinv_new d e) ?_ p h
          show SortedAsc (((create_block_for_entry d e).add_entry e).entries ++ rest)
          rw [SortedAsc, add_entry_entries]
          exact (List.chain'_append.1 hs).2.1
        · refine scan_pairs_inv d rest (b.add_entry e) ?_ ?_ p h
          · refine blockinv_append d b e hb (by rename_i hsc; simpa using hsc) ?_
            intro last_e hlast
            exact (List.chain'_append.1 hs).2.2 last_e hlast e
              (by rw [List.head?_cons]; rfl)
          · show SortedAsc ((b.add_entry e).entries ++ rest)
            rw [SortedAsc, add_entry_entries, List.append_assoc]
            exact hs

/-- The scan invariant at every decision point of a full scan. -/
theorem scan_pairs_inv_start (d : Int) (l : List UsageEntry)
    (hs : SortedAsc l) : ∀ p ∈ scan_pairs d l none, BlockInv d p.1 := by
  cases l with
  | nil =>
      intro p hp
      rw [scan_pairs] at hp
      simp at hp
  | cons e rest =>
      intro p hp
      rw [scan_pairs] at hp
      refine scan_pairs_inv d rest _ (blockinv_new d e) ?_ p hp
      show SortedAsc (((create_block_for_entry d e).add_entry e).entries ++ rest)
      rw [SortedAsc, add_entry_entries]
      exact hs

end ClaudeUsage

/-! ## Claim theorems -/

namespace ClaudeUsage

/-- C1: for every non-empty entry sequence sorted ascending by timestamp,
concatenating the entries of the blocks returned by `identify_blocks`, in
block order, yields exactly the input sequence — no entry is dropped,
duplicated, or reordered. -/
theorem c1_partition (d : Int) (l : List UsageEntry) (hne : l ≠ [])
    (hs : SortedAsc l) : blocks_entries (identify_blocks d l) = l := by
  cases l with
  | nil => exact absurd rfl hne
  | cons e rest =>
      rw [identify_blocks, if_neg (by simp), loop_join]
      rfl

theorem c1_partition_witness :
    ([⟨0, "a", 1, 2, 0, 0, 0⟩, ⟨600, "b", 3, 4, 0, 0, 0⟩,
      ⟨21600, "c", 5, 6, 0, 0, 0⟩] : List UsageEntry) ≠ [] ∧
    SortedAsc [⟨0, "a", 1, 2, 0, 0, 0⟩, ⟨600, "b", 3, 4, 0, 0, 0⟩,
      ⟨21600, "c", 5, 6, 0, 0, 0⟩] ∧
    blocks_entries (identify_blocks 18000
      [⟨0, "a", 1, 2, 0, 0, 0⟩, ⟨600, "b", 3, 4, 0, 0, 0⟩,
       ⟨21600, "c", 5, 6, 0, 0, 0⟩]) =
      [⟨0, "a", 1, 2, 0, 0, 0⟩, ⟨600, "b", 3, 4, 0, 0, 0⟩,
       ⟨21600, "c", 5, 6, 0, 0, 0⟩] :=
  ⟨by decide, by decide, c1_partition 18000 _ (by decide) (by decide)⟩

/-- C2, as stated, is false: `update_duration` replaces the quotient by `1.0`
only when it is exactly `0.0`, it does not floor to a minimum of `1.0`. Two
entries 30 seconds apart give `duration_minutes = 0.5`, not `1.0`. -/
theorem c2_counterexample :
    (build_block 0 18000 [⟨0, "m", 100, 50, 0, 0, 0⟩,
      ⟨30, "m", 100, 50, 0, 0, 0⟩]).duration_minutes = 1 / 2 ∧
    ¬ 1 ≤ (build_block 0 18000 [⟨0, "m", 100, 50, 0, 0, 0⟩,
      ⟨30, "m", 100, 50, 0, 0, 0⟩]).duration_minutes := by
  have h : (build_block 0 18000 [⟨0, "m", 100, 50, 0, 0, 0⟩,
      ⟨30, "m", 100, 50, 0, 0, 0⟩]).duration_minutes = 1 / 2 := by
    norm_num [build_block, SessionBlock.add_entry, SessionBlock.update_duration,
      SessionBlock.new, TokenCounts.add_entry, TokenCounts.new]
  rw [h]
  norm_num

/-- C2 amended: after every append with timestamp-ascending entries,
`duration_minutes` equals (last entry timestamp − first entry timestamp) in
minutes, replaced by `1.0` only when that quantity is exactly zero
(`dm_spec`); it is strictly positive for every non-empty block, but can be
smaller than `1.0`. -/
theorem c2_amended (s en : Int) (l : List UsageEntry) (hne : l ≠ [])
    (hs : SortedAsc l) :
    (build_block s en l).duration_minutes = dm_spec l ∧
    0 < (build_block s en l).duration_minutes := by
  have h := build_block_duration s en l hne
  exact ⟨h, h ▸ dm_spec_pos l hne hs⟩

theorem c2_amended_witness :
    ([⟨0, "m", 100, 50, 0, 0, 0⟩, ⟨30, "m", 100, 50, 0, 0, 0⟩] :
      List UsageEntry) ≠ [] ∧
    SortedAsc [⟨0, "m", 100, 50, 0, 0, 0⟩, ⟨30, "m", 100, 50, 0, 0, 0⟩] ∧
    ((build_block 0 18000 [⟨0, "m", 100, 50, 0, 0, 0⟩,
        ⟨30, "m", 100, 50, 0, 0, 0⟩]).duration_minutes =
      dm_spec [⟨0, "m", 100, 50, 0, 0, 0⟩, ⟨30, "m", 100, 50, 0, 0, 0⟩] ∧
     0 < (build_block 0 18000 [⟨0, "m", 100, 50, 0, 0, 0⟩,
        ⟨30, "m", 100, 50, 0, 0, 0⟩]).duration_minutes) :=
  ⟨by decide, by decide, c2_amended 0 18000 _ (by decide) (by decide)⟩

/-- C3, as stated, is false: on a timestamp-ascending input the idle-gap rule
can never close a block at an entry strictly before that block's `end_time`.
A block's entries all sit at or after its `start_time` (the triggering
entry's hour-floor), so a gap of at least the window length from the block's
last entry always puts the new entry at or past `start_time + window =
end_time`, where rule 1 already fires. -/
theorem c3_counterexample :
    ¬ ∃ (d : Int) (l : List UsageEntry) (b : SessionBlock) (e : UsageEntry),
        SortedAsc l ∧ (b, e) ∈ scan_pairs d l none ∧
        should_create_new_block d b e = true ∧ e.timestamp < b.end_time := by
  rintro ⟨d, l, b, e, hs, hmem, htrue, hlt⟩
  have hpast := should_create_imp_past_end d b e
    (scan_pairs_inv_start d l hs (b, e) hmem) htrue
  omega

/-- C3 amended: on every timestamp-ascending input, whenever
`should_create_new_block` fires at a decision point of `identify_blocks`'
scan — in particular whenever the idle-gap rule fires — the scanned entry's
timestamp is already at or past the current block's `end_time`: the idle-gap
rule never splits a window that rule 1 would keep open. -/
theorem c3_amended (d : Int) (l : List UsageEntry) (hs : SortedAsc l) :
    ∀ p ∈ scan_pairs d l none,
      should_create_new_block d p.1 p.2 = true →
        p.1.end_time ≤ p.2.timestamp := by
  intro p hp htrue
  exact should_create_imp_past_end d p.1 p.2
    (scan_pairs_inv_start d l hs p hp) htrue

theorem c3_amended_witness :
    SortedAsc [⟨1800, "a", 1, 2, 0, 0, 0⟩, ⟨21600, "b", 3, 4, 0, 0, 0⟩] ∧
    ∀ p ∈ scan_pairs 18000
        [⟨1800, "a", 1, 2, 0, 0, 0⟩, ⟨21600, "b", 3, 4, 0, 0, 0⟩] none,
      should_create_new_block 18000 p.1 p.2 = true →
        p.1.end_time ≤ p.2.timestamp :=
  ⟨by decide, c3_amended 18000 _ (by decide)⟩

/-- C9: `identify_blocks` on empty input returns the empty sequence; on
every timestamp-ascending input, every returned block is non-empty, has
strictly positive `duration_minutes`, and `calculate_burn_rate` on it never
takes its `None` branch. -/
theorem c9_no_empty_blocks (d : Int) (l : List UsageEntry) (hs : SortedAsc l) :
    identify_blocks d [] = [] ∧
    ∀ b ∈ identify_blocks d l,
      b.entries ≠ [] ∧ 0 < b.duration_minutes ∧
        calculate_burn_rate b ≠ none := by
  refine ⟨rfl, ?_⟩
  intro b hb
  obtain ⟨hne, hend, hsort, hlow, hup, hdur⟩ := identify_blocks_inv d l hs b hb
  have hpos : 0 < b.duration_minutes := hdur ▸ dm_spec_pos _ hne hsort
  refine ⟨hne, hpos, ?_⟩
  rw [calculate_burn_rate, if_neg (by push_neg; exact ⟨hne, ne_of_gt hpos⟩)]
  simp

theorem c9_no_empty_blocks_witness :
    SortedAsc [⟨0, "a", 1, 2, 0, 0, 0⟩, ⟨21600, "b", 3, 4, 0, 0, 0⟩] ∧
    (identify_blocks 18000 [] = [] ∧
     ∀ b ∈ identify_blocks 18000
         [⟨0, "a", 1, 2, 0, 0, 0⟩, ⟨21600, "b", 3, 4, 0, 0, 0⟩],
       b.entries ≠ [] ∧ 0 < b.duration_minutes ∧
         calculate_burn_rate b ≠ none) :=
  ⟨by decide, c9_no_empty_blocks 18000 _ (by decide)⟩

/-- C10: if the configured window length is at least one hour, then on every
timestamp-ascending input every entry of every block returned by
`identify_blocks` has a timestamp at or after that block's `start_time` and
strictly before its `end_time`. -/
theorem c10_containment (d : Int) (l : List UsageEntry) (hd : 3600 ≤ d)
    (hs : SortedAsc l) :
    ∀ b ∈ identify_blocks d l, ∀ e ∈ b.entries,
      b.start_time ≤ e.timestamp ∧ e.timestamp < b.end_time := by
  intro b hb e he
  obtain ⟨hne, hend, hsort, hlow, hup, hdur⟩ := identify_blocks_inv d l hs b hb
  exact ⟨hlow e he, hup hd e he⟩

theorem c10_containment_witness :
    (3600 : Int) ≤ 18000 ∧
    SortedAsc [⟨1800, "a", 1, 2, 0, 0, 0⟩, ⟨21600, "b", 3, 4, 0, 0, 0⟩] ∧
    ∀ b ∈ identify_blocks 18000
        [⟨1800, "a", 1, 2, 0, 0, 0⟩, ⟨21600, "b", 3, 4, 0, 0, 0⟩],
      ∀ e ∈ b.entries,
        b.start_time ≤ e.timestamp ∧ e.timestamp < b.end_time :=
  ⟨by decide, by decide, c10_containment 18000 _ (by decide) (by decide)⟩

end ClaudeUsage

namespace ClaudeUsage

theorem f64_to_i64_of_nonneg (q : ℚ) (h : 0 ≤ q) : f64_to_i64 q = ⌊q⌋ := by
  rw [f64_to_i64, if_neg (not_lt.2 h)]

theorem f64_to_u64_of_nonneg (q : ℚ) (h : 0 ≤ q) :
    (f64_to_u64 q : Int) = ⌊q⌋ := by
  rw [f64_to_u64, if_neg (not_lt.2 h)]
  exact Int.toNat_of_nonneg (Int.floor_nonneg.2 h)

/-- C4, as stated, is false in its "returns exactly (limit − current) / rate
minutes" part: the result is converted with `as i64`, so only the whole
minutes of the quotient are kept. At (0, 100, 3.0) the code returns 33
minutes, not 100/3 minutes. -/
theorem c4_counterexample :
    calculate_time_to_limit 0 100 3 = some 33 ∧ ((33 : ℚ) ≠ (100 - 0) / 3) := by
  constructor
  · norm_num [calculate_time_to_limit, f64_to_i64]
  · norm_num

/-- C4 amended: `calculate_time_to_limit(current, limit, rate)` returns no
result iff `current ≥ limit` or `rate ≤ 0`; otherwise it returns
`⌊(limit − current) / rate⌋` whole minutes (the quotient truncated by the
`as i64` cast), and in particular `(500, 1000, 5.0) ↦ 100` minutes and
`(1000, 500, 5.0) ↦ None`. -/
theorem c4_amended (current_tokens token_limit : Nat) (rate : ℚ) :
    (calculate_time_to_limit current_tokens token_limit rate = none ↔
      token_limit ≤ current_tokens ∨ rate ≤ 0) ∧
    (current_tokens < token_limit → 0 < rate →
      calculate_time_to_limit current_tokens token_limit rate =
        some ⌊((token_limit : ℚ) - (current_tokens : ℚ)) / rate⌋) ∧
    calculate_time_to_limit 500 1000 5 = some 100 ∧
    calculate_time_to_limit 1000 500 5 = none := by
  refine ⟨?_, ?_, ?_, ?_⟩
  · rw [calculate_time_to_limit]
    split
    · simp only [true_iff]
      assumption
    · simp only [reduceCtorEq, false_iff]
      assumption
  · intro hlt hr
    rw [calculate_time_to_limit, if_neg (by push_neg; exact ⟨hlt, hr⟩)]
    have hq : (0 : ℚ) ≤ ((token_limit - current_tokens : Nat) : ℚ) / rate :=
      div_nonneg (by positivity) hr.le
    rw [f64_to_i64_of_nonneg _ hq, Nat.cast_sub hlt.le]
  · norm_num [calculate_time_to_limit, f64_to_i64]
  · norm_num [calculate_time_to_limit]

theorem c4_amended_witness :
    calculate_time_to_limit 500 1000 5 =
      some ⌊((1000 : ℚ) - (500 : ℚ)) / 5⌋ :=
  (c4_amended 500 1000 5).2.1 (by norm_num) (by norm_num)

end ClaudeUsage

namespace ClaudeUsage

/-- C5: `calculate_burn_rate` returns no result iff the block has no entries
or zero `duration_minutes`; otherwise tokens-per-minute is raw (unweighted)
`total_tokens / duration_minutes` and cost-per-hour is
`cost / duration_minutes * 60`; a block holding one entry of 150 total
tokens (duration floored to 1 minute) yields tokens-per-minute 150. -/
theorem c5_burn_rate (b : SessionBlock) :
    (calculate_burn_rate b = none ↔
      b.entries = [] ∨ b.duration_minutes = 0) ∧
    (∀ br, calculate_burn_rate b = some br →
      br.tokens_per_minute =
        (b.token_counts.total_tokens : ℚ) / b.duration_minutes ∧
      br.cost_per_hour = b.cost_usd / b.duration_minutes * 60) ∧
    calculate_burn_rate (build_block 0 18000 [⟨0, "m", 100, 50, 0, 0, 0⟩]) =
      some ⟨150, 0⟩ := by
  refine ⟨?_, ?_, ?_⟩
  · rw [calculate_burn_rate]
    split
    · simp only [true_iff]
      assumption
    · simp only [reduceCtorEq, false_iff]
      assumption
  · intro br hbr
    rw [calculate_burn_rate] at hbr
    split at hbr
    · exact absurd hbr (by simp)
    · rw [Option.some.injEq] at hbr
      subst hbr
      exact ⟨rfl, rfl⟩
  · norm_num [calculate_burn_rate, build_block, SessionBlock.add_entry,
      SessionBlock.update_duration, SessionBlock.new, TokenCounts.add_entry,
      TokenCounts.new, TokenCounts.total_tokens]

theorem c5_burn_rate_witness :
    (BurnRate.mk 150 0).tokens_per_minute =
      ((build_block 0 18000
          [⟨0, "m", 100, 50, 0, 0, 0⟩]).token_counts.total_tokens : ℚ) /
        (build_block 0 18000 [⟨0, "m", 100, 50, 0, 0, 0⟩]).duration_minutes ∧
    (BurnRate.mk 150 0).cost_per_hour =
      (build_block 0 18000 [⟨0, "m", 100, 50, 0, 0, 0⟩]).cost_usd /
        (build_block 0 18000 [⟨0, "m", 100, 50, 0, 0, 0⟩]).duration_minutes *
        60 :=
  (c5_burn_rate (build_block 0 18000 [⟨0, "m", 100, 50, 0, 0, 0⟩])).2.1
    ⟨150, 0⟩
    (c5_burn_rate (build_block 0 18000 [⟨0, "m", 100, 50, 0, 0, 0⟩])).2.2

end ClaudeUsage

namespace ClaudeUsage

/-- C6: for every block built by `add_entry` calls over timestamp-ascending
entries, `project_block_usage(block, at_time)` returns no result iff the
block is empty or `at_time ≥ end_time`; and every returned projection has
`projected_additional_tokens = ⌊tokens_per_minute · remaining_minutes⌋` and
totals equal to current plus additional. -/
theorem c6_projection (s en : Int) (l : List UsageEntry) (t : Int)
    (hs : SortedAsc l) :
    (project_block_usage (build_block s en l) t = none ↔ l = [] ∨ en ≤ t) ∧
    (∀ p, project_block_usage (build_block s en l) t = some p →
      (p.projected_additional_tokens : Int) =
        ⌊((build_block s en l).token_counts.total_tokens : ℚ) /
          (build_block s en l).duration_minutes *
          (((en - t : Int) : ℚ) / 60)⌋ ∧
      p.projected_total_tokens =
        p.current_tokens + p.projected_additional_tokens ∧
      p.projected_total_cost =
        p.current_cost + p.projected_additional_cost) := by
  have hent : (build_block s en l).entries = l := build_block_entries s en l
  have hend : (build_block s en l).end_time = en := build_block_end s en l
  constructor
  · constructor
    · intro hnone
      by_contra hc
      push_neg at hc
      obtain ⟨hl, ht⟩ := hc
      rw [project_block_usage,
        if_neg (by rw [hent, hend]; push_neg; exact ⟨hl, ht⟩)] at hnone
      have hdm : (build_block s en l).duration_minutes ≠ 0 := by
        rw [build_block_duration s en l hl]
        exact dm_spec_ne_zero l hl
      rw [calculate_burn_rate,
        if_neg (by push_neg; exact ⟨by rw [hent]; exact hl, hdm⟩)] at hnone
      simp at hnone
    · intro h
      rw [project_block_usage, if_pos (by rw [hent, hend]; exact h)]
  · intro p hp
    by_cases hcond : l = [] ∨ en ≤ t
    · rw [project_block_usage,
        if_pos (by rw [hent, hend]; exact hcond)] at hp
      exact absurd hp (by simp)
    · push_neg at hcond
      obtain ⟨hl, ht⟩ := hcond
      have hdmpos : 0 < (build_block s en l).duration_minutes := by
        rw [build_block_duration s en l hl]
        exact dm_spec_pos l hl hs
      have hlne : (build_block s en l).entries ≠ [] := by
        rw [hent]; exact hl
      rw [project_block_usage,
        if_neg (by rw [hent, hend]; push_neg; exact ⟨hl, ht⟩),
        calculate_burn_rate,
        if_neg (by push_neg; exact ⟨hlne, ne_of_gt hdmpos⟩)] at hp
      rw [Option.some_bind] at hp
      rw [Option.some.injEq] at hp
      subst hp
      have hrm : (0 : ℚ) ≤ (((build_block s en l).end_time - t : Int) : ℚ) / 60 := by
        apply div_nonneg _ (by norm_num)
        rw [hend]
        exact_mod_cast Int.sub_nonneg.mpr ht.le
      have htpm : (0 : ℚ) ≤
          ((build_block s en l).token_counts.total_tokens : ℚ) /
            (build_block s en l).duration_minutes :=
        div_nonneg (Nat.cast_nonneg _) hdmpos.le
      refine ⟨?_, rfl, rfl⟩
      show ((f64_to_u64 _ : Nat) : Int) = _
      rw [f64_to_u64_of_nonneg _ (mul_nonneg htpm hrm), hend]

theorem c6_projection_witness :
    project_block_usage (build_block 0 7200 [⟨0, "m", 100, 50, 0, 0, 0⟩])
        3600 = none ↔
      ([⟨0, "m", 100, 50, 0, 0, 0⟩] : List UsageEntry) = [] ∨
        (7200 : Int) ≤ 3600 :=
  (c6_projection 0 7200 [⟨0, "m", 100, 50, 0, 0, 0⟩] 3600 (by decide)).1

end ClaudeUsage

namespace ClaudeUsage

/-- C7: the plan-usage percentage equals total weighted tokens over the plan
cap times 100, and for a fixed plan it is monotonically non-decreasing in
the total weighted tokens. -/
theorem c7_plan_percentage (es1 es2 : List UsageEntry) (plan : ClaudePlan)
    (h : get_total_weighted_tokens es1 ≤ get_total_weighted_tokens es2) :
    get_plan_usage_percentage es1 plan =
      get_total_weighted_tokens es1 / (plan.max_tokens : ℚ) * 100 ∧
    get_plan_usage_percentage es1 plan ≤
      get_plan_usage_percentage es2 plan := by
  have hc : (0 : ℚ) < (plan.max_tokens : ℚ) := by
    cases plan <;> norm_num [ClaudePlan.max_tokens]
  refine ⟨rfl, ?_⟩
  rw [get_plan_usage_percentage, get_plan_usage_percentage]
  gcongr

theorem c7_plan_percentage_witness :
    get_total_weighted_tokens
        [⟨0, "claude-3-opus-20240229", 10, 0, 0, 0, 0⟩] ≤
      get_total_weighted_tokens
        [⟨0, "claude-3-opus-20240229", 10, 0, 0, 0, 0⟩,
         ⟨60, "claude-3-opus-20240229", 10, 0, 0, 0, 0⟩] ∧
    (get_plan_usage_percentage
        [⟨0, "claude-3-opus-20240229", 10, 0, 0, 0, 0⟩] ClaudePlan.Pro =
      get_total_weighted_tokens
          [⟨0, "claude-3-opus-20240229", 10, 0, 0, 0, 0⟩] /
        (ClaudePlan.Pro.max_tokens : ℚ) * 100 ∧
     get_plan_usage_percentage
        [⟨0, "claude-3-opus-20240229", 10, 0, 0, 0, 0⟩] ClaudePlan.Pro ≤
      get_plan_usage_percentage
        [⟨0, "claude-3-opus-20240229", 10, 0, 0, 0, 0⟩,
         ⟨60, "claude-3-opus-20240229", 10, 0, 0, 0, 0⟩] ClaudePlan.Pro) :=
  ⟨by norm_num [get_total_weighted_tokens, calculate_weighted_tokens,
      get_model_weight, UsageEntry.total_tokens],
   c7_plan_percentage _ _ ClaudePlan.Pro
     (by norm_num [get_total_weighted_tokens, calculate_weighted_tokens,
       get_model_weight, UsageEntry.total_tokens])⟩

/-- C8: `calculate_average_burn_rate` returns no result iff no block yields
a defined burn rate, and otherwise returns the component-wise unweighted
arithmetic mean of the individually computed burn rates of exactly those
blocks whose burn rate is defined. -/
theorem c8_average (blocks : List SessionBlock) :
    (calculate_average_burn_rate blocks = none ↔
      ∀ b ∈ blocks, calculate_burn_rate b = none) ∧
    (∀ br, calculate_average_burn_rate blocks = some br →
      br.tokens_per_minute =
        ((blocks.filterMap calculate_burn_rate).map
          BurnRate.tokens_per_minute).sum /
          (blocks.filterMap calculate_burn_rate).length ∧
      br.cost_per_hour =
        ((blocks.filterMap calculate_burn_rate).map
          BurnRate.cost_per_hour).sum /
          (blocks.filterMap calculate_burn_rate).length) := by
  constructor
  · simp only [calculate_average_burn_rate]
    split
    · rename_i hemp
      rw [List.isEmpty_iff] at hemp
      subst hemp
      simp
    · split
      · rename_i h2
        rw [List.isEmpty_iff, List.filterMap_eq_nil_iff] at h2
        simp only [true_iff]
        exact h2
      · rename_i h2
        rw [List.isEmpty_iff, List.filterMap_eq_nil_iff] at h2
        simp only [reduceCtorEq, false_iff]
        exact h2
  · intro br hbr
    simp only [calculate_average_burn_rate] at hbr
    split at hbr
    · exact absurd hbr (by simp)
    · split at hbr
      · exact absurd hbr (by simp)
      · rw [Option.some.injEq] at hbr
        subst hbr
        exact ⟨rfl, rfl⟩

theorem c8_average_witness :
    (BurnRate.mk 100 0).tokens_per_minute =
      (([sample_block_fast, sample_block_slow].filterMap
        calculate_burn_rate).map BurnRate.tokens_per_minute).sum /
        ([sample_block_fast, sample_block_slow].filterMap
          calculate_burn_rate).length ∧
    (BurnRate.mk 100 0).cost_per_hour =
      (([sample_block_fast, sample_block_slow].filterMap
        calculate_burn_rate).map BurnRate.cost_per_hour).sum /
        ([sample_block_fast, sample_block_slow].filterMap
          calculate_burn_rate).length :=
  (c8_average [sample_block_fast, sample_block_slow]).2 ⟨100, 0⟩ (by
    have h1 : calculate_burn_rate sample_block_fast = some ⟨150, 0⟩ := by
      norm_num [calculate_burn_rate, sample_block_fast, TokenCounts.total_tokens]
    have h2 : calculate_burn_rate sample_block_slow = some ⟨50, 0⟩ := by
      norm_num [calculate_burn_rate, sample_block_slow, TokenCounts.total_tokens]
    simp only [calculate_average_burn_rate, List.filterMap_cons,
      List.filterMap_nil, h1, h2]
    norm_num)

end ClaudeUsage
